import Mathlib

/-!
Verification of the ATLAS server-side request pipeline.

Shallow embedding of the Python modules under `backend/`:
hybrid_search.py (RRF fusion), citations.py (parent-citation
aggregation), document_reranking.py (relevance scoring and reranking),
prompt_cache.py (universal prompt cache), streaming.py together with the
`/api/ask/stream` response generator in app.py (SSE framing and the LLM
concurrency semaphore), and services/queue_manager.py (async job store).
Machine floats of the source are modelled as exact rationals; time is an
explicit natural-number parameter threaded through stateful operations.
-/

/-- Lowercasing of a string, character by character (models Python
`str.lower()` for the relevant alphabets). -/
def lowerStr (s : String) : String :=
  String.mk (s.data.map Char.toLower)

/-- Metadata values appearing in document metadata maps: strings or
integers (the two kinds the aggregation and reranking code touches). -/
inductive MVal where
  | s (v : String)
  | i (v : Int)
deriving DecidableEq

/-- Python truthiness of a metadata value: a string is truthy iff
non-empty, an integer iff non-zero. -/
def MVal.truthy : MVal → Bool
  | .s v => v ≠ ""
  | .i v => v ≠ 0

/-- Integer coercion used where the code treats a metadata value as a
chunk count or index (`meta.get("chunk_index", 0)` etc.). -/
def MVal.asInt : MVal → Int
  | .s _ => 0
  | .i v => v

/-- A post-ingestion document: page content plus a metadata map
(`langchain` `Document`), the map modelled as an association list. -/
structure Doc where
  page_content : String
  metadata : List (String × MVal)
deriving DecidableEq

/-- Dictionary lookup `metadata.get(key)` (first binding wins, as the
maps are built without duplicate keys). -/
def metaGet (m : List (String × MVal)) (k : String) : Option MVal :=
  (m.find? (fun p => decide (p.1 = k))).map (·.2)

/-- Lookup `metadata.get(key, default)` for string-valued fields. -/
def metaGetS (m : List (String × MVal)) (k : String) (dflt : String) : String :=
  match metaGet m k with
  | some (.s v) => v
  | _ => dflt

/-- Lookup `metadata.get(key, default)` for integer-valued fields. -/
def metaGetI (m : List (String × MVal)) (k : String) (dflt : Int) : Int :=
  match metaGet m k with
  | some v => v.asInt
  | none => dflt

/-! ## Reciprocal Rank Fusion — backend/modules/hybrid_search.py -/

/-- Rank map of a ranked id list, as built by the dict comprehension
`{doc_id: rank for rank, (doc_id, _) in enumerate(items)}`: the rank of
an id is the position of its last occurrence (later assignments win). -/
def to_rank_map : List String → String → Option Nat
  | [], _ => none
  | a :: t, doc_id =>
    match to_rank_map t doc_id with
    | some r => some (r + 1)
    | none => if a = doc_id then some 0 else none

/-- Fused RRF score of one id: `1/(k + r_dense) + 1/(k + r_lex)` with the
sentinel rank 1000000 for an id absent from a list. -/
def rrf_score (dense lexical : List String) (k : ℕ) (doc_id : String) : ℚ :=
  let r_dense : ℕ := (to_rank_map dense doc_id).getD 1000000
  let r_lex : ℕ := (to_rank_map lexical doc_id).getD 1000000
  1 / ((k : ℚ) + r_dense) + 1 / ((k : ℚ) + r_lex)

/-- RRF merge of two ranked lists (`rrf_merge`). Python iterates the set
union `set(d_rank) | set(l_rank)` in an unspecified order; the model
takes that enumeration as the explicit parameter `ids`. The fused pairs
are sorted by descending score with a stable sort (CPython
`list.sort(reverse=True)` is stable, and a stable sort's output is
unique, so the stable insertion sort models it exactly) and the first
`top_k` ids are returned. -/
def rrf_merge (dense lexical ids : List String) (k top_k : ℕ) : List String :=
  let fused := ids.map (fun doc_id => (doc_id, rrf_score dense lexical k doc_id))
  let sorted := fused.insertionSort (fun a b => a.2 ≥ b.2)
  (sorted.take top_k).map Prod.fst

/-- The enumeration `ids` is a faithful stand-in for the set union
exactly when it lists each id of either input once. -/
def rrf_ids_ok (dense lexical ids : List String) : Prop :=
  ids.Nodup ∧ ∀ s, s ∈ ids ↔ (s ∈ dense ∨ s ∈ lexical)

/-! ## Citation aggregation — backend/modules/citations.py -/

/-- Preview helper `_preview`: first 300 characters, with an ellipsis
when the text was truncated. -/
def preview (text : String) : String :=
  String.mk (text.data.take 300) ++ (if text.data.length > 300 then "..." else "")

/-- Parent-level citation as assembled by `aggregate_parent_citations`
(the fields the aggregation logic computes; the formatter-built base
fields are represented by title/text). -/
structure ParentCitation where
  parent_id : MVal
  title : String
  text : String
  chunk_indices : List Int
  total_chunks : Int
  related_snippets : List String
deriving DecidableEq

/-- Append a document to its parent group, preserving first-seen parent
order (the `groups`/`order` pair of the source). -/
def groupInsert (groups : List (MVal × List Doc)) (pid : MVal) (d : Doc) :
    List (MVal × List Doc) :=
  if groups.any (fun g => decide (g.1 = pid)) then
    groups.map (fun g => if g.1 = pid then (g.1, g.2 ++ [d]) else g)
  else
    groups ++ [(pid, [d])]

/-- One iteration of the grouping loop of `aggregate_parent_citations`:
a document with a truthy `parent_key` value joins its group; any other
document aborts the aggregation (`return []`). -/
def citeStep (parent_key : String) (groups : List (MVal × List Doc)) (d : Doc) :
    Option (List (MVal × List Doc)) :=
  match metaGet d.metadata parent_key with
  | some v => if v.truthy then some (groupInsert groups v d) else none
  | none => none

/-- Truthiness of a document's parent id, the condition the grouping
loop tests (`if not parent_id: return []`). -/
def hasTruthyParent (d : Doc) (parent_key : String) : Bool :=
  match metaGet d.metadata parent_key with
  | some v => v.truthy
  | none => false

/-- Grouping loop of `aggregate_parent_citations`: walk the documents,
grouping by the `parent_key` metadata value; `none` models the
`return []` taken as soon as any document lacks a truthy parent id. -/
def collectGroups (docs : List Doc) (parent_key : String) :
    Option (List (MVal × List Doc)) :=
  docs.foldlM (citeStep parent_key) []

/-- Sorted set of chunk indices: `sorted(set(chunk_indices))`. -/
def sortedChunkSet (l : List Int) : List Int :=
  l.dedup.insertionSort (· ≤ ·)

/-- Build the citation for one parent group: representative is the first
chunk; chunk indices are collected with default 0, `total_chunks` is the
maximum over the group with default 1, and up to two extra previews
become related snippets. -/
def mkParentCitation (g : MVal × List Doc) : ParentCitation :=
  let ds := g.2
  let rep := ds.headD ⟨"", []⟩
  { parent_id := g.1
    title := metaGetS rep.metadata "title" ""
    text := preview rep.page_content
    chunk_indices := sortedChunkSet (ds.map (fun d => metaGetI d.metadata "chunk_index" 0))
    total_chunks := ((ds.map (fun d => metaGetI d.metadata "total_chunks" 1)).max?).getD 1
    related_snippets := ((ds.drop 1).take 2).map (fun d => preview d.page_content) }

/-- `aggregate_parent_citations(documents, parent_key=…, limit=…)`:
group by parent, then emit one citation per parent for the first
`limit` parents in first-seen order. Empty input, or any document with
a missing or falsy parent id, yields the empty list. -/
def aggregate_parent_citations (docs : List Doc) (parent_key : String)
    (limit : ℕ) : List ParentCitation :=
  if docs.isEmpty then []
  else
    match collectGroups docs parent_key with
    | none => []
    | some groups => (groups.take limit).map mkParentCitation

/-! ## Document reranking — backend/modules/document_reranking.py -/

/-- Word character of the regex class `\w` (tokenization context of the
reranker's ASCII English queries). -/
def isWordChar (c : Char) : Bool :=
  c.isAlphanum || c = '_'

/-- Splitter worker for `WORD_PATTERN.findall`: accumulates the current
run of word characters (in reverse) and emits maximal runs. -/
def wordsAux : List Char → List Char → List (List Char)
  | [], acc => if acc.isEmpty then [] else [acc.reverse]
  | c :: rest, acc =>
    if isWordChar c then wordsAux rest (c :: acc)
    else if acc.isEmpty then wordsAux rest []
    else acc.reverse :: wordsAux rest []

/-- Token list of a character sequence: all maximal runs of word
characters, in order (`re.findall(r'\b\w+\b', text)`). -/
def wordsOf (text : List Char) : List (List Char) :=
  wordsAux text []

/-- The fixed English stop-word set `STOP_WORDS`. -/
def STOP_WORDS : List String :=
  ["a", "an", "the", "and", "or", "but", "in", "on", "at", "to",
   "for", "with", "by", "about", "as", "is", "are", "was", "were",
   "has", "have", "had", "be", "been", "being", "of", "from", "it"]

/-- Keyword extraction: tokens of the lowercased query, minus stop words
and tokens shorter than `MIN_TERM_LENGTH = 3`. -/
def keywordsOf (query : String) : List (List Char) :=
  (wordsOf (query.data.map Char.toLower)).filter
    (fun w => !(STOP_WORDS.map String.data).contains w && decide (w.length ≥ 3))

/-- Whole-word match of `kw` at position `i` of `content`: the keyword's
characters occur at `i` with a `\b` boundary on each side (keywords are
made of word characters only, so `\b` means a list end or a non-word
neighbour). -/
def matchesWordAt (kw content : List Char) (i : ℕ) : Bool :=
  decide ((content.drop i).take kw.length = kw) &&
  decide (kw.length > 0) &&
  (decide (i = 0) || !isWordChar (content.getD (i - 1) ' ')) &&
  (decide (i + kw.length = content.length) || !isWordChar (content.getD (i + kw.length) ' '))

/-- Count of whole-word occurrences of a keyword
(`len(pattern.findall(content))` for `\bkw\b`; boundary-delimited
matches of a fixed word can never overlap, so counting start positions
is exact). -/
def countWord (kw content : List Char) : ℕ :=
  ((List.range (content.length + 1)).filter (matchesWordAt kw content)).length

/-- Existence of a match of `\b kw1 (.{0,50}) kw2 \b`: `kw1` with a left
boundary, then at most `PROXIMITY_WINDOW = 50` characters none of which
is a newline (`.` does not match `\n`), then `kw2` with a right
boundary. -/
def proxMatch (kw1 kw2 content : List Char) : Bool :=
  (List.range (content.length + 1)).any (fun i =>
    decide ((content.drop i).take kw1.length = kw1) &&
    decide (kw1.length > 0) &&
    (decide (i = 0) || !isWordChar (content.getD (i - 1) ' ')) &&
    (List.range 51).any (fun g =>
      let j := i + kw1.length + g
      decide (j + kw2.length ≤ content.length) &&
      ((content.drop (i + kw1.length)).take g).all (fun c => c ≠ '\n') &&
      decide ((content.drop j).take kw2.length = kw2) &&
      decide (kw2.length > 0) &&
      (decide (j + kw2.length = content.length) ||
        !isWordChar (content.getD (j + kw2.length) ' '))))

/-- Proximity score: for every ordered keyword pair `(i, j)` with
`i < j`, one point per direction in which the pair occurs within the
window (`enumerate(keywords[:-1])` with inner loop `keywords[i+1:]`). -/
def proximityPairs : List (List Char) → List Char → ℚ
  | [], _ => 0
  | kw1 :: rest, content =>
    (rest.map (fun kw2 =>
      (if proxMatch kw1 kw2 content then (1 : ℚ) else 0) +
      (if proxMatch kw2 kw1 content then (1 : ℚ) else 0))).sum +
    proximityPairs rest content

/-- Relevance score `calculate_relevance_score(document, query)`:
`0.5·exact_match + 0.3·keyword_freq + 0.2·proximity + metadata_bonus`,
clamped to `MAX_SCORE = 10`. Exact match awards 10 when the lowercased
query is a substring of the lowercased content; keyword frequency sums
`min(5, whole-word count)` per keyword; the metadata bonus is 0.5 per
string-valued metadata field containing any keyword as a substring. -/
def calculate_relevance_score (document : Doc) (query : String) : ℚ :=
  let content := document.page_content.data.map Char.toLower
  let query_lower := query.data.map Char.toLower
  let keywords := keywordsOf query
  let phrase_score : ℚ := if query_lower <:+: content then 10 else 0
  let keyword_score : ℚ :=
    (keywords.map (fun kw => min (5 : ℚ) ((countWord kw content : ℕ) : ℚ))).sum
  let proximity_score : ℚ :=
    if keywords.length > 1 then proximityPairs keywords content else 0
  let total_score : ℚ :=
    phrase_score * (1 / 2) + keyword_score * (3 / 10) + proximity_score * (1 / 5)
  let metadata_boost : ℚ :=
    ((document.metadata.filter (fun p =>
      match p.2 with
      | .s v => keywords.any (fun kw => kw <:+: v.data.map Char.toLower)
      | .i _ => false)).length : ℚ) * (1 / 2)
  min 10 (total_score + metadata_boost)

/-- Reranking core `_rerank_documents_internal`: empty input returns
nothing; an empty or all-whitespace query returns the first `max_docs`
documents unscored; otherwise every document is scored, the list is
stably sorted by descending score, and the first `max_docs` survive.
The batching of the source changes no result and is elided. -/
def rerank_documents_internal (documents : List Doc) (query : String)
    (max_docs : ℕ) : List Doc × List ℚ :=
  if documents.isEmpty then ([], [])
  else if query.data.all Char.isWhitespace then
    (documents.take max_docs, List.replicate (min documents.length max_docs) 0)
  else
    ((((documents.map (fun d => (d, calculate_relevance_score d query))).insertionSort
        (fun a b => a.2 ≥ b.2)).take max_docs).map Prod.fst,
     (((documents.map (fun d => (d, calculate_relevance_score d query))).insertionSort
        (fun a b => a.2 ≥ b.2)).take max_docs).map Prod.snd)

/-! ## Universal prompt cache — backend/modules/prompt_cache.py -/

/-- Content of the SHA-256 cache key: the hashed quadruple
(system prompt or "", context or "", lowercased provider, lowercased
model). The hash itself is modelled by the quadruple (injective on the
hashed content). -/
structure CacheKey where
  system_prompt : String
  context : String
  provider : String
  model : String
deriving DecidableEq

/-- One `CacheEntry` of the cache (times are model time units; the
source's `ttl_minutes` plays the role of `ttl`). -/
structure CacheEntry where
  system_prompt : String
  context : String
  created_at : ℕ
  last_used : ℕ
  hit_count : ℕ
  ttl : ℕ
deriving DecidableEq

/-- State of a `UniversalPromptCache`: the keyed entry table plus the
construction-time configuration flags and default TTL. -/
structure PromptCache where
  cache : List (CacheKey × CacheEntry)
  enabled : Bool
  cache_system : Bool
  cache_context : Bool
  default_ttl : ℕ
deriving DecidableEq

/-- Result dictionary of a cache operation, restricted to the fields the
verification reads; `hit_count` is only populated on a hit. -/
structure CacheInfo where
  cache_hit : Bool
  hit_count : ℕ
deriving DecidableEq

/-- Key construction `_create_cache_key`: components are blanked when
the corresponding caching flag is off; provider and model are
lowercased. -/
def create_cache_key (c : PromptCache) (system_prompt context provider model : String) :
    CacheKey :=
  ⟨if c.cache_system then system_prompt else "",
   if c.cache_context then context else "",
   lowerStr provider, lowerStr model⟩

/-- Expiry check `_is_expired`: an entry is expired once `now` passes
`last_used + ttl`. -/
def is_expired (now : ℕ) (e : CacheEntry) : Bool :=
  decide (now > e.last_used + e.ttl)

/-- Opportunistic sweep `_cleanup_expired`: drop all expired entries. -/
def cleanup_expired (now : ℕ) (c : PromptCache) : PromptCache :=
  { c with cache := c.cache.filter (fun p => !is_expired now p.2) }

/-- Dictionary lookup in the entry table. -/
def lookupEntry (cache : List (CacheKey × CacheEntry)) (k : CacheKey) :
    Option CacheEntry :=
  (cache.find? (fun p => decide (p.1 = k))).map (·.2)

/-- Prompt assembly `_build_formatted_prompt`: system prompt followed by
the context block when the context is non-empty. -/
def build_formatted_prompt (system_prompt context : String) : String :=
  if context ≠ "" then
    system_prompt ++ "\n\nContext information is below.\n" ++ context ++ "\n\n"
  else system_prompt

/-- `get_cached_prompt`: `none` when disabled; otherwise sweep expired
entries, and on a live entry refresh `last_used`, bump `hit_count` and
return the prompt rebuilt from the stored components. -/
def get_cached_prompt (now : ℕ) (c : PromptCache)
    (system_prompt context provider model : String) :
    Option (String × CacheInfo) × PromptCache :=
  if !c.enabled then (none, c)
  else
    let key := create_cache_key c system_prompt context provider model
    let c1 := cleanup_expired now c
    match lookupEntry c1.cache key with
    | some e =>
      if !is_expired now e then
        let e' : CacheEntry := { e with last_used := now, hit_count := e.hit_count + 1 }
        (some (build_formatted_prompt e.system_prompt e.context, ⟨true, e'.hit_count⟩),
         { c1 with cache := c1.cache.map (fun p => if p.1 = key then (key, e') else p) })
      else
        (none, { c1 with cache := c1.cache.filter (fun p => !decide (p.1 = key)) })
    | none => (none, c1)

/-- `cache_prompt`: insert a fresh entry (respecting the flags) with
`hit_count = 0`; a zero or absent custom TTL falls back to the default
(Python `ttl_minutes or self.default_ttl_minutes`). Returns the key, or
`none` when caching is disabled. -/
def cache_prompt (now : ℕ) (c : PromptCache)
    (system_prompt context provider model : String) (ttl? : Option ℕ) :
    Option CacheKey × PromptCache :=
  if !c.enabled then (none, c)
  else
    let key := create_cache_key c system_prompt context provider model
    let ttl := match ttl? with
      | some t => if t = 0 then c.default_ttl else t
      | none => c.default_ttl
    let e : CacheEntry :=
      ⟨if c.cache_system then system_prompt else "",
       if c.cache_context then context else "", now, now, 0, ttl⟩
    (some key, { c with cache := (key, e) :: c.cache.filter (fun p => !decide (p.1 = key)) })

/-- `build_optimized_prompt`: return the cached prompt on a hit;
otherwise assemble the prompt from the arguments and cache it. -/
def build_optimized_prompt (now : ℕ) (c : PromptCache)
    (system_prompt context provider model : String) :
    (String × CacheInfo) × PromptCache :=
  match get_cached_prompt now c system_prompt context provider model with
  | (some (p, info), c') => ((p, info), c')
  | (none, c') =>
    let p := build_formatted_prompt system_prompt context
    let (_, c'') := cache_prompt now c' system_prompt context provider model none
    ((p, ⟨false, 0⟩), c'')

/-! ## SSE streaming path — backend/modules/streaming.py and the
`/api/ask/stream` response generator of backend/app.py -/

/-- Citation dictionary produced by `format_document_for_citation`
(backend/retrievers/darwin_retriever.py), restricted to the fields the
verified properties read. -/
structure StreamCitation where
  id : String
  title : String
  corpus : String
  text : String
  chunk_index : Int
  total_chunks : Int
deriving DecidableEq

/-- `format_document_for_citation(document, idx)`: id prefers
`letter_id`, then `id`, then a positional fallback; corpus defaults to
"darwin"; the text is the 300-character preview. -/
def format_document_for_citation (d : Doc) (idx : ℕ) : StreamCitation :=
  let doc_id :=
    match metaGet d.metadata "letter_id" with
    | some (.s v) => if v ≠ "" then v else "letter_" ++ Nat.repr idx
    | _ =>
      match metaGet d.metadata "id" with
      | some (.s v) => if v ≠ "" then v else "letter_" ++ Nat.repr idx
      | _ => "letter_" ++ Nat.repr idx
  { id := doc_id
    title := "Letter from " ++ metaGetS d.metadata "sender_name" "Unknown" ++
      " to " ++ metaGetS d.metadata "recipient_name" "Unknown" ++
      " (" ++ metaGetS d.metadata "date_sent" "Unknown date" ++ ")"
    corpus := metaGetS d.metadata "corpus" "darwin"
    text := preview d.page_content
    chunk_index := metaGetI d.metadata "chunk_index" 0
    total_chunks := metaGetI d.metadata "total_chunks" 1 }

/-- SSE frames yielded by the response generator, identified by their
event type and payload: a text chunk, the `references` frame carrying
the citation payload, the `complete` frame carrying `responseText` and
its `citations` field, and an `error` frame. -/
inductive SSEEvent where
  | chunk (text : String)
  | references (citations : List StreamCitation)
  | complete (citations : List StreamCitation) (text : String)
  | error
deriving DecidableEq

/-- Event-type tests for counting frames. -/
def SSEEvent.isComplete : SSEEvent → Bool
  | .complete _ _ => true
  | _ => false

/-- Error-frame test. -/
def SSEEvent.isError : SSEEvent → Bool
  | .error => true
  | _ => false

/-- The failure points an execution of `response_generator` can hit:
an exception raised in the retrieval step (before the LLM slot is
acquired), an exception raised after the slot is acquired but before
chunk streaming begins, an exception raised by the chunk generator
after a prefix of the chunks (caught in `stream_response_chunks`, which
yields an error frame and re-raises), and an exception inside
`stream_documents_as_references` (caught there, turning the references
frame into an error frame). -/
structure RunCond where
  retrievalFails : Bool
  genSetupFails : Bool
  chunkFailAfter : Option ℕ
  refsFail : Bool
deriving DecidableEq

/-- Citations carried by the `references` frame: the first
`citation_limit` documents formatted positionally
(`stream_documents_as_references`). -/
def referencesCitations (docs : List Doc) (citation_limit : ℕ) :
    List StreamCitation :=
  (docs.take citation_limit).enum.map (fun p => format_document_for_citation p.2 p.1)

/-- SSE frame sequence of one run of `response_generator` (app.py):
a retrieval exception reaches the outer handler, which yields a single
sanitized error frame; an empty retrieval yields an error frame and
returns; otherwise the generation path streams its chunk frames — an
exception from the chunk generator makes `stream_response_chunks` yield
an error frame and re-raise, upon which the inner handler yields a
second error frame — then the references frame (or the error frame its
internal handler produces), then the `complete` frame built by
`create_complete_message(text=full_response, qa_id=qa_id)`, whose
`citations` argument is not passed and so defaults to the empty list. -/
def responseGeneratorEvents (docs : List Doc) (chunks : List String)
    (citation_limit : ℕ) (cond : RunCond) : List SSEEvent :=
  if cond.retrievalFails then [.error]
  else if docs.isEmpty then [.error]
  else if cond.genSetupFails then [.error]
  else
    match cond.chunkFailAfter with
    | some n => (chunks.take n).map .chunk ++ [.error, .error]
    | none =>
      chunks.map .chunk ++
      (if cond.refsFail then [.error]
       else [.references (referencesCitations docs citation_limit)]) ++
      [.complete [] (String.join chunks)]

/-! ## LLM concurrency semaphore — `LLMResourceManager` and the
acquire/release sites of `response_generator` (backend/app.py) -/

/-- Semaphore operations a request performs. -/
inductive SemOp where
  | acquire
  | release
deriving DecidableEq

/-- Semaphore operations of one `response_generator` run, at the sites
of the source: a retrieval exception reaches the outer handler, which
calls `release_llm_slot()` without any acquire; an empty retrieval
returns before the acquire; every other path acquires a slot and
releases it in the inner `finally`. -/
def requestSemOps (docs : List Doc) (cond : RunCond) : List SemOp :=
  if cond.retrievalFails then [.release]
  else if docs.isEmpty then []
  else [.acquire, .release]

/-- Discipline the spec asserts: scanning the operation list, every
release is preceded by a matching acquire still held. -/
def releasesCovered : ℕ → List SemOp → Bool
  | _, [] => true
  | held, .acquire :: rest => releasesCovered (held + 1) rest
  | held, .release :: rest => decide (held > 0) && releasesCovered (held - 1) rest

/-- Global state of the admission system: the `asyncio.Semaphore`
counter plus how many requests of each kind are pending, how many are
inside the generation path, and how many have finished. A `failing`
request is one whose retrieval raises before the acquire. -/
structure SemSystem where
  counter : ℕ
  failPending : ℕ
  normPending : ℕ
  generating : ℕ
  finished : ℕ
deriving DecidableEq

/-- Transitions of the admission system. `failRun` is a failing request
running to completion: its outer handler calls `release_llm_slot()`,
and `asyncio.Semaphore.release` increments the counter unconditionally.
`enter` is a normal request passing `acquire_llm_slot` (enabled only
while the counter is positive); `exit` is a normal request leaving
generation and releasing its slot. -/
inductive SemStep : SemSystem → SemSystem → Prop
  | failRun {s : SemSystem} (h : s.failPending > 0) :
      SemStep s { s with counter := s.counter + 1, failPending := s.failPending - 1,
                         finished := s.finished + 1 }
  | enter {s : SemSystem} (h : s.normPending > 0) (hc : s.counter > 0) :
      SemStep s { s with counter := s.counter - 1, normPending := s.normPending - 1,
                         generating := s.generating + 1 }
  | exit {s : SemSystem} (h : s.generating > 0) :
      SemStep s { s with counter := s.counter + 1, generating := s.generating - 1,
                         finished := s.finished + 1 }

/-- Reachability of the admission system. -/
def SemReachable : SemSystem → SemSystem → Prop :=
  Relation.ReflTransGen SemStep

/-- Initial state: the semaphore holds `LLM_MAX_CONCURRENT` permits and
all requests are pending. -/
def semInit (max_concurrent failing normal : ℕ) : SemSystem :=
  ⟨max_concurrent, failing, normal, 0, 0⟩

/-! ## Async job store — backend/services/queue_manager.py -/

/-- Metadata hash stored under `request:{id}` at submission. -/
structure ReqData where
  status : String
  created_at : ℕ
  user_id : String
  query : String
deriving DecidableEq

/-- Redis-backed state for one request id: the metadata hash and the
result blob under `result:{id}`, each paired with its absolute expiry
instant. -/
structure JobStore where
  req : Option (ReqData × ℕ)
  res : Option (String × ℕ)
deriving DecidableEq

/-- Key liveness: present and not yet past its expiry instant. -/
def keyLive (now : ℕ) : Option (ReqData × ℕ) → Bool
  | none => false
  | some (_, exp) => decide (now < exp)

/-- Result-blob liveness. -/
def resLive (now : ℕ) : Option (String × ℕ) → Bool
  | none => false
  | some (_, exp) => decide (now < exp)

/-- `queue_request`: store the metadata hash with status `queued` and a
3600-second TTL counted from submission. -/
def queue_request (now : ℕ) (query user_id : String) (s : JobStore) : JobStore :=
  { s with req := some (⟨"queued", now, user_id, query⟩, now + 3600) }

/-- `update_request_status`: a no-op when the metadata hash is gone;
otherwise `hset` rewrites the status field without touching the hash's
TTL, and a provided result is stored under `result:{id}` with its own
fresh 3600-second TTL counted from completion. -/
def update_request_status (now : ℕ) (status : String) (result : Option String)
    (s : JobStore) : JobStore :=
  if !keyLive now s.req then s
  else
    let s1 : JobStore :=
      { s with req := s.req.map (fun p => ({ p.1 with status := status }, p.2)) }
    match result with
    | none => s1
    | some r => { s1 with res := some (r, now + 3600) }

/-- Status poll response, restricted to the read fields. -/
structure StatusResponse where
  status : String
  result : Option String
deriving DecidableEq

/-- `get_request_status`: `not_found` once the metadata hash has
expired; otherwise the stored status, with the result blob attached
when the status is `completed` and the blob is still live. -/
def get_request_status (now : ℕ) (s : JobStore) : StatusResponse :=
  if !keyLive now s.req then ⟨"not_found", none⟩
  else
    match s.req with
    | some (d, _) =>
      ⟨d.status,
       if d.status = "completed" ∧ resLive now s.res then s.res.map (·.1) else none⟩
    | none => ⟨"not_found", none⟩

/-! ## Theorems -/

lemma citeStep_none_iff (parent_key : String) (groups : List (MVal × List Doc))
    (d : Doc) : citeStep parent_key groups d = none ↔ hasTruthyParent d parent_key = false := by
  unfold citeStep hasTruthyParent
  cases h : metaGet d.metadata parent_key with
  | none => simp
  | some v => by_cases hv : v.truthy <;> simp [hv]

lemma collect_aux_none (parent_key : String) :
    ∀ (docs : List Doc) (init : List (MVal × List Doc)),
      (∃ d ∈ docs, hasTruthyParent d parent_key = false) →
      docs.foldlM (citeStep parent_key) init = none := by
  intro docs
  induction docs with
  | nil => intro init h; rcases h with ⟨d, hd, _⟩; cases hd
  | cons a t ih =>
    intro init h
    rw [List.foldlM_cons]
    by_cases ha : hasTruthyParent a parent_key = false
    · rw [(citeStep_none_iff parent_key init a).2 ha]
      rfl
    · cases hstep : citeStep parent_key init a with
      | none => rfl
      | some groups' =>
        have hmem : ∃ d ∈ t, hasTruthyParent d parent_key = false := by
          rcases h with ⟨d, hd, hdf⟩
          rcases List.mem_cons.1 hd with rfl | hdt
          · exact absurd hdf ha
          · exact ⟨d, hdt, hdf⟩
        simpa using ih groups' hmem

lemma groupInsert_key_prop (P : MVal → Prop) (groups : List (MVal × List Doc))
    (pid : MVal) (d : Doc) (hg : ∀ g ∈ groups, P g.1) (hp : P pid) :
    ∀ g ∈ groupInsert groups pid d, P g.1 := by
  intro g hgmem
  unfold groupInsert at hgmem
  by_cases hc : groups.any (fun g => decide (g.1 = pid)) = true
  · rw [if_pos hc] at hgmem
    rcases List.mem_map.1 hgmem with ⟨g', hg', hEq⟩
    by_cases he : g'.1 = pid
    · rw [if_pos he] at hEq
      rw [← hEq]
      exact he ▸ hp
    · rw [if_neg he] at hEq
      rw [← hEq]
      exact hg g' hg'
  · rw [if_neg hc] at hgmem
    rcases List.mem_append.1 hgmem with h | h
    · exact hg g h
    · rw [List.mem_singleton] at h
      rw [h]
      exact hp

lemma collect_aux_inv (parent_key : String) :
    ∀ (docs : List Doc) (init groups : List (MVal × List Doc)),
      (∀ g ∈ init, g.1.truthy = true) →
      docs.foldlM (citeStep parent_key) init = some groups →
      ∀ g ∈ groups, g.1.truthy = true := by
  intro docs
  induction docs with
  | nil => intro init groups hinit heq; cases heq; exact hinit
  | cons a t ih =>
    intro init groups hinit heq
    rw [List.foldlM_cons] at heq
    cases hstep : citeStep parent_key init a with
    | none => rw [hstep] at heq; cases heq
    | some groups' =>
      rw [hstep] at heq
      have hinv : ∀ g ∈ groups', g.1.truthy = true := by
        cases hm : metaGet a.metadata parent_key with
        | none => simp [citeStep, hm] at hstep
        | some v =>
          simp only [citeStep, hm] at hstep
          by_cases hv : v.truthy = true
          · rw [if_pos hv] at hstep
            injection hstep with hstep
            rw [← hstep]
            exact groupInsert_key_prop (fun m => m.truthy = true) init v a hinit hv
          · rw [if_neg hv] at hstep
            cases hstep
      simpa using ih groups' groups hinv heq

lemma sortedChunkSet_pairwise_lt (l : List Int) :
    (sortedChunkSet l).Pairwise (· < ·) := by
  have hle : (sortedChunkSet l).Pairwise (· ≤ ·) :=
    List.sorted_insertionSort (· ≤ ·) l.dedup
  have hne : (sortedChunkSet l).Pairwise (· ≠ ·) :=
    (List.perm_insertionSort (· ≤ ·) l.dedup).nodup_iff.2 (List.nodup_dedup l)
  exact (hle.and hne).imp (fun h => lt_of_le_of_ne h.1 h.2)

/-- Claim C10: when any input document has no truthy value under the
`parent_key` metadata field, `aggregate_parent_citations` returns the
empty list — no citation is produced for any document, valid parents
included. -/
theorem c10_missing_parent_aborts (docs : List Doc) (parent_key : String)
    (limit : ℕ) (h : ∃ d ∈ docs, hasTruthyParent d parent_key = false) :
    aggregate_parent_citations docs parent_key limit = [] := by
  unfold aggregate_parent_citations
  by_cases hd : docs.isEmpty
  · simp [hd]
  · rw [if_neg hd]
    unfold collectGroups
    rw [collect_aux_none parent_key docs [] h]

theorem c10_missing_parent_aborts_witness :
    (∃ d ∈ [Doc.mk "good chunk" [("letter_id", MVal.s "DCP-LETT-1")],
            Doc.mk "bad chunk" []], hasTruthyParent d "letter_id" = false) ∧
    aggregate_parent_citations
      [Doc.mk "good chunk" [("letter_id", MVal.s "DCP-LETT-1")],
       Doc.mk "bad chunk" []] "letter_id" 10 = [] :=
  ⟨by decide, c10_missing_parent_aborts _ _ 10 (by decide)⟩

/-- Claim C6, amended: for every non-empty input and every limit the
aggregator returns at most `limit` citations, every citation's parent
id is truthy (a non-empty string id in particular), and its chunk-index
list is strictly increasing. The original claim's containment of every
chunk index in `[0, total_chunks)` does not hold: the code copies the
`chunk_index` and `total_chunks` metadata unvalidated (see the
counterexample). -/
theorem c6_citation_invariants_amended (docs : List Doc) (parent_key : String)
    (limit : ℕ) (hne : docs ≠ []) :
    (aggregate_parent_citations docs parent_key limit).length ≤ limit ∧
    ∀ c ∈ aggregate_parent_citations docs parent_key limit,
      c.parent_id.truthy = true ∧ c.chunk_indices.Pairwise (· < ·) := by
  unfold aggregate_parent_citations
  by_cases hd : docs.isEmpty
  · exact absurd (List.isEmpty_iff.1 hd) hne
  · rw [if_neg hd]
    cases hcol : collectGroups docs parent_key with
    | none => simp
    | some groups =>
      constructor
      · calc ((groups.take limit).map mkParentCitation).length
            = (groups.take limit).length := List.length_map _ _
          _ ≤ limit := List.length_take_le _ _
      · intro c hc
        rcases List.mem_map.1 hc with ⟨g, hgmem, hEq⟩
        have hg : g ∈ groups := List.mem_of_mem_take hgmem
        have htruthy : g.1.truthy = true :=
          collect_aux_inv parent_key docs [] groups (by intro g hg; cases hg) hcol g hg
        constructor
        · rw [← hEq]
          exact htruthy
        · rw [← hEq]
          exact sortedChunkSet_pairwise_lt _

theorem c6_citation_invariants_amended_witness :
    ([Doc.mk "a chunk" [("letter_id", MVal.s "DCP-LETT-2"), ("chunk_index", MVal.i 0),
        ("total_chunks", MVal.i 3)]] ≠ ([] : List Doc)) ∧
    ((aggregate_parent_citations
        [Doc.mk "a chunk" [("letter_id", MVal.s "DCP-LETT-2"), ("chunk_index", MVal.i 0),
          ("total_chunks", MVal.i 3)]] "letter_id" 10).length ≤ 10 ∧
      ∀ c ∈ aggregate_parent_citations
        [Doc.mk "a chunk" [("letter_id", MVal.s "DCP-LETT-2"), ("chunk_index", MVal.i 0),
          ("total_chunks", MVal.i 3)]] "letter_id" 10,
        c.parent_id.truthy = true ∧ c.chunk_indices.Pairwise (· < ·)) :=
  ⟨by decide, c6_citation_invariants_amended _ "letter_id" 10 (by decide)⟩

/-- Claim C6 counterexample: a single document whose metadata carries
`chunk_index = 5` and `total_chunks = 2` produces a citation whose
chunk index 5 lies outside `[0, total_chunks)`; the aggregator imposes
no such containment. -/
theorem c6_citation_invariants_cex :
    ¬ (∀ c ∈ aggregate_parent_citations
        [Doc.mk "t" [("letter_id", MVal.s "L1"), ("chunk_index", MVal.i 5),
          ("total_chunks", MVal.i 2)]] "letter_id" 10,
        ∀ x ∈ c.chunk_indices, 0 ≤ x ∧ x < c.total_chunks) := by
  decide

/-- Claim C2, amended: every run of the `/api/ask/stream` response
generator yields either exactly one `complete` frame and no `error`
frame, or no `complete` frame and one or two `error` frames, or — only
when the references formatter fails — one `error` frame followed by one
`complete` frame; two `error` frames arise exactly from an exception in
the chunk generator (`stream_response_chunks` emits one and re-raises,
and the handler in `response_generator` emits a second). The original
"exactly one `complete` or one `error`, never both and never more than
one" is refuted by the double-error path (see the counterexample). -/
theorem c2_sse_terminal_events_amended (docs : List Doc) (chunks : List String)
    (citation_limit : ℕ) (cond : RunCond) :
    let es := responseGeneratorEvents docs chunks citation_limit cond
    let ncomp := es.countP SSEEvent.isComplete
    let nerr := es.countP SSEEvent.isError
    ((ncomp = 1 ∧ nerr = 0) ∨ (ncomp = 0 ∧ nerr = 1) ∨
     (ncomp = 0 ∧ nerr = 2) ∨ (ncomp = 1 ∧ nerr = 1)) ∧
    (nerr = 2 → cond.chunkFailAfter ≠ none) ∧
    ((ncomp = 1 ∧ nerr = 1) → cond.refsFail = true) := by
  intro es ncomp nerr
  obtain ⟨rf, gf, cfa, rsf⟩ := cond
  have hchunkC : ∀ l : List String, (l.map SSEEvent.chunk).countP SSEEvent.isComplete = 0 := by
    intro l
    rw [List.countP_eq_zero]
    intro e he
    rcases List.mem_map.1 he with ⟨x, _, rfl⟩
    simp [SSEEvent.isComplete]
  have hchunkE : ∀ l : List String, (l.map SSEEvent.chunk).countP SSEEvent.isError = 0 := by
    intro l
    rw [List.countP_eq_zero]
    intro e he
    rcases List.mem_map.1 he with ⟨x, _, rfl⟩
    simp [SSEEvent.isError]
  simp only [es, ncomp, nerr, responseGeneratorEvents]
  cases rf
  · cases hde : docs.isEmpty
    · cases gf
      · cases cfa with
        | some n =>
          simp [List.countP_append, hchunkC, hchunkE, List.countP_cons,
            SSEEvent.isComplete, SSEEvent.isError]
          refine ⟨?_, ?_⟩ <;>
            · intro a ha
              rcases List.mem_map.1 (List.mem_of_mem_take ha) with ⟨x, hx, hEq⟩
              rw [← hEq]
        | none =>
          cases rsf <;>
            simp [List.countP_append, hchunkC, hchunkE, List.countP_cons,
              SSEEvent.isComplete, SSEEvent.isError]
      · simp [SSEEvent.isComplete, SSEEvent.isError]
    · simp [SSEEvent.isComplete, SSEEvent.isError]
  · simp [SSEEvent.isComplete, SSEEvent.isError]

theorem c2_sse_terminal_events_amended_witness :
    let es := responseGeneratorEvents [Doc.mk "t" []] ["a"] 10 ⟨false, false, none, false⟩
    let ncomp := es.countP SSEEvent.isComplete
    let nerr := es.countP SSEEvent.isError
    ((ncomp = 1 ∧ nerr = 0) ∨ (ncomp = 0 ∧ nerr = 1) ∨
     (ncomp = 0 ∧ nerr = 2) ∨ (ncomp = 1 ∧ nerr = 1)) ∧
    (nerr = 2 → (RunCond.mk false false none false).chunkFailAfter ≠ none) ∧
    ((ncomp = 1 ∧ nerr = 1) → (RunCond.mk false false none false).refsFail = true) :=
  c2_sse_terminal_events_amended [Doc.mk "t" []] ["a"] 10 ⟨false, false, none, false⟩

/-- Claim C2 counterexample: an exception raised while iterating the
chunk generator (before any chunk is produced) yields two `error`
frames and no `complete` frame — more than one `error` event in a
single SSE response. -/
theorem c2_sse_terminal_events_cex :
    (responseGeneratorEvents [Doc.mk "t" []] [] 10
      ⟨false, false, some 0, false⟩).countP SSEEvent.isError = 2 ∧
    (responseGeneratorEvents [Doc.mk "t" []] [] 10
      ⟨false, false, some 0, false⟩).countP SSEEvent.isComplete = 0 := by
  decide

/-- Claim C3, amended: on every normal completion the stream is the
chunk frames, then a `references` frame carrying the citations derived
from the retrieved documents (non-empty whenever the document list is
non-empty and the citation limit positive), then the `complete` frame —
whose `citations` field is always the empty list, because
`response_generator` calls `create_complete_message(text=…, qa_id=…)`
without passing citations. The claimed non-empty `citations` field of
the `complete` frame is refuted by the counterexample. -/
theorem c3_complete_frame_citations_amended (docs : List Doc)
    (chunks : List String) (citation_limit : ℕ) (h1 : docs ≠ [])
    (h2 : 1 ≤ citation_limit) :
    responseGeneratorEvents docs chunks citation_limit ⟨false, false, none, false⟩ =
      chunks.map SSEEvent.chunk ++
        [SSEEvent.references (referencesCitations docs citation_limit),
         SSEEvent.complete [] (String.join chunks)] ∧
    referencesCitations docs citation_limit ≠ [] := by
  have hde : docs.isEmpty = false := by
    cases docs with
    | nil => exact absurd rfl h1
    | cons a t => rfl
  constructor
  · simp [responseGeneratorEvents, hde]
  · have hlen : 0 < (docs.take citation_limit).length := by
      rw [List.length_take]
      have hdl : 0 < docs.length := List.length_pos.2 h1
      omega
    have : 0 < (referencesCitations docs citation_limit).length := by
      unfold referencesCitations
      rw [List.length_map, List.enum_length]
      exact hlen
    exact List.ne_nil_of_length_pos this

theorem c3_complete_frame_citations_amended_witness :
    ([Doc.mk "Constitution Act debate"
        [("corpus", MVal.s "1901_au"), ("id", MVal.s "H1")]] ≠ ([] : List Doc)) ∧
    referencesCitations
      [Doc.mk "Constitution Act debate"
        [("corpus", MVal.s "1901_au"), ("id", MVal.s "H1")]] 10 ≠ [] :=
  ⟨by decide,
   (c3_complete_frame_citations_amended
      [Doc.mk "Constitution Act debate"
        [("corpus", MVal.s "1901_au"), ("id", MVal.s "H1")]]
      ["ans"] 10 (by decide) (by decide)).2⟩

/-- Claim C3 counterexample: for a normally completing streaming ask
over a non-empty `1901_au` document list, the final frame is
`complete` with an empty `citations` list, even though non-empty
citations were derived from the documents (they travel in the separate
`references` frame). -/
theorem c3_complete_frame_citations_cex :
    (responseGeneratorEvents
      [Doc.mk "Constitution Act debate"
        [("corpus", MVal.s "1901_au"), ("id", MVal.s "H1")]]
      ["ans"] 10 ⟨false, false, none, false⟩).getLast? =
      some (SSEEvent.complete [] "ans") ∧
    referencesCitations
      [Doc.mk "Constitution Act debate"
        [("corpus", MVal.s "1901_au"), ("id", MVal.s "H1")]] 10 ≠ [] := by
  decide

/-- Claim C1: the LLM semaphore can be over-subscribed. A request whose
retrieval raises before `acquire_llm_slot` still executes
`release_llm_slot()` in the outer exception handler of
`response_generator` — a release with no matching acquire — and
`asyncio.Semaphore.release` increments the counter unconditionally, so
with `LLM_MAX_CONCURRENT = 1` one failed-retrieval request followed by
two ordinary requests reaches a state with two requests concurrently
inside the generation path. -/
theorem c1_semaphore_over_release :
    requestSemOps [Doc.mk "q" []] ⟨true, false, none, false⟩ = [SemOp.release] ∧
    releasesCovered 0 (requestSemOps [Doc.mk "q" []] ⟨true, false, none, false⟩) = false ∧
    ∃ s : SemSystem, SemReachable (semInit 1 1 2) s ∧ s.generating > 1 := by
  refine ⟨by decide, by decide, ⟨0, 0, 0, 2, 1⟩, ?_, by decide⟩
  have step1 : SemStep (semInit 1 1 2) ⟨2, 0, 2, 0, 1⟩ :=
    SemStep.failRun (by decide)
  have step2 : SemStep ⟨2, 0, 2, 0, 1⟩ ⟨1, 0, 1, 1, 1⟩ :=
    SemStep.enter (by decide) (by decide)
  have step3 : SemStep ⟨1, 0, 1, 1, 1⟩ ⟨0, 0, 0, 2, 1⟩ :=
    SemStep.enter (by decide) (by decide)
  exact Relation.ReflTransGen.tail
    (Relation.ReflTransGen.tail
      (Relation.ReflTransGen.tail Relation.ReflTransGen.refl step1) step2) step3

/-- Claim C9, amended: the metadata record of an async job expires
3600 seconds after submission (after which a status poll reports the
job not found), while the result blob written at completion carries its
own 3600-second TTL counted from completion; the two records expire at
the same instant only when completion happens at the submission
instant. During the gap the status poll already reports `not_found`
although the result blob is still stored. -/
theorem c9_job_ttl_amended (t0 t1 : ℕ) (q u r : String) (s0 : JobStore)
    (h01 : t0 ≤ t1) (hlive : t1 < t0 + 3600) :
    let s := update_request_status t1 "completed" (some r) (queue_request t0 q u s0)
    s.req = some (⟨"completed", t0, u, q⟩, t0 + 3600) ∧
    s.res = some (r, t1 + 3600) ∧
    (t0 < t1 → resLive (t0 + 3600) s.res = true ∧
      keyLive (t0 + 3600) s.req = false ∧
      get_request_status (t0 + 3600) s = ⟨"not_found", none⟩) := by
  intro s
  have hq : (queue_request t0 q u s0).req = some (⟨"queued", t0, u, q⟩, t0 + 3600) := rfl
  have hkl : keyLive t1 (queue_request t0 q u s0).req = true := by
    rw [hq]
    simp [keyLive, hlive]
  have hs : s = { req := some (⟨"completed", t0, u, q⟩, t0 + 3600),
                  res := some (r, t1 + 3600) } := by
    show update_request_status t1 "completed" (some r) (queue_request t0 q u s0) = _
    unfold update_request_status
    rw [hkl]
    simp [queue_request]
  refine ⟨by rw [hs], by rw [hs], ?_⟩
  intro hlt
  have h1 : resLive (t0 + 3600) s.res = true := by
    rw [hs]
    simp [resLive]
    omega
  have h2 : keyLive (t0 + 3600) s.req = false := by
    rw [hs]
    simp [keyLive]
  refine ⟨h1, h2, ?_⟩
  unfold get_request_status
  rw [h2]
  rfl

theorem c9_job_ttl_amended_witness :
    let s := update_request_status 1 "completed" (some "res")
      (queue_request 0 "x" "" ⟨none, none⟩)
    s.req = some (⟨"completed", 0, "", "x"⟩, 0 + 3600) ∧
    s.res = some (("res", 1 + 3600)) ∧
    (0 < 1 → resLive (0 + 3600) s.res = true ∧
      keyLive (0 + 3600) s.req = false ∧
      get_request_status (0 + 3600) s = ⟨"not_found", none⟩) :=
  c9_job_ttl_amended 0 1 "x" "" "res" ⟨none, none⟩ (by decide) (by decide)

/-- Claim C9 counterexample: a job submitted at t=0 and completed at
t=100 has its status record already expired at t=3650 — the poll
returns `not_found` — while the result blob is still stored until
t=3700; the stored fields do not become unavailable at the same
instant. -/
theorem c9_job_ttl_cex :
    keyLive 3650 (update_request_status 100 "completed" (some "r")
      (queue_request 0 "x" "" ⟨none, none⟩)).req = false ∧
    resLive 3650 (update_request_status 100 "completed" (some "r")
      (queue_request 0 "x" "" ⟨none, none⟩)).res = true ∧
    get_request_status 3650 (update_request_status 100 "completed" (some "r")
      (queue_request 0 "x" "" ⟨none, none⟩)) = ⟨"not_found", none⟩ := by
  decide

lemma calc_score_stopword_zero (d : Doc) (query : String)
    (hk : keywordsOf query = [])
    (hs : ¬ (query.data.map Char.toLower <:+: d.page_content.data.map Char.toLower)) :
    calculate_relevance_score d query = 0 := by
  unfold calculate_relevance_score
  rw [hk]
  simp only [List.map_nil, List.sum_nil, List.length_nil, List.any_nil]
  rw [if_neg hs]
  have hfilter : (d.metadata.filter (fun p =>
      match p.2 with
      | MVal.s v => false
      | MVal.i v => false)) = [] := by
    rw [List.filter_eq_nil_iff]
    intro p _
    cases p.2 <;> simp
  rw [hfilter]
  norm_num

/-- Claim C7, amended: for a query whose extracted keyword set is empty,
`calculate_relevance_score` is determined solely by the exact-phrase
term, so it returns 0 for every document whose lowercased text does not
contain the lowercased query as a substring (and 5, not 0, when it
does — see the counterexample); when no document contains the query as
a substring, all scores are 0 and reranking returns the first
`max_docs` documents in their original retrieval order. -/
theorem c7_stopword_query_amended (docs : List Doc) (query : String)
    (max_docs : ℕ) (hk : keywordsOf query = [])
    (hs : ∀ d ∈ docs,
      ¬ (query.data.map Char.toLower <:+: d.page_content.data.map Char.toLower)) :
    (∀ d ∈ docs, calculate_relevance_score d query = 0) ∧
    (rerank_documents_internal docs query max_docs).1 = docs.take max_docs := by
  have hzero : ∀ d ∈ docs, calculate_relevance_score d query = 0 :=
    fun d hd => calc_score_stopword_zero d query hk (hs d hd)
  refine ⟨hzero, ?_⟩
  unfold rerank_documents_internal
  by_cases hde : docs.isEmpty
  · rw [if_pos hde]
    rw [List.isEmpty_iff.1 hde]
    simp
  · rw [if_neg hde]
    by_cases hws : query.data.all Char.isWhitespace
    · rw [if_pos hws]
    · rw [if_neg hws]
      have hsorted : (docs.map (fun d => (d, calculate_relevance_score d query))).Sorted
          (fun a b => a.2 ≥ b.2) := by
        rw [List.Sorted, List.pairwise_map]
        rw [List.pairwise_iff_getElem]
        intro i j hi hj _
        rw [hzero docs[i] (docs.getElem_mem hi), hzero docs[j] (docs.getElem_mem hj)]
      show ((((docs.map (fun d => (d, calculate_relevance_score d query))).insertionSort
          (fun a b => a.2 ≥ b.2)).take max_docs).map Prod.fst) = docs.take max_docs
      rw [hsorted.insertionSort_eq]
      rw [← List.map_take]
      rw [List.map_map]
      rw [show (Prod.fst ∘ fun d => (d, calculate_relevance_score d query)) = id from rfl]
      rw [List.map_id]

theorem c7_stopword_query_amended_witness :
    (keywordsOf "is it in" = []) ∧
    (∀ d ∈ [Doc.mk "some content here" []],
      calculate_relevance_score d "is it in" = 0) ∧
    (rerank_documents_internal [Doc.mk "some content here" []] "is it in" 3).1 =
      [Doc.mk "some content here" []].take 3 :=
  ⟨by decide,
   (c7_stopword_query_amended [Doc.mk "some content here" []] "is it in" 3
      (by decide) (by decide)).1,
   (c7_stopword_query_amended [Doc.mk "some content here" []] "is it in" 3
      (by decide) (by decide)).2⟩

/-- Claim C7 counterexample: the query "the and" consists only of stop
words (its keyword set is empty), yet its relevance score against a
document containing "the and" verbatim is 5, not 0 — the exact-phrase
term fires even when no keywords survive extraction. -/
theorem c7_stopword_query_cex :
    keywordsOf "the and" = [] ∧
    calculate_relevance_score (Doc.mk "the and more" []) "the and" = 5 := by
  constructor
  · decide
  · have hinf : ("the and".data.map Char.toLower <:+:
        "the and more".data.map Char.toLower) := by decide
    simp only [calculate_relevance_score]
    rw [show keywordsOf "the and" = [] from by decide]
    rw [if_pos hinf]
    norm_num

lemma lookupEntry_filter_not_expired (now : ℕ) (l : List (CacheKey × CacheEntry))
    (k : CacheKey) (e : CacheEntry)
    (h : lookupEntry (l.filter (fun p => !is_expired now p.2)) k = some e) :
    is_expired now e = false := by
  unfold lookupEntry at h
  rcases Option.map_eq_some'.1 h with ⟨pair, hfind, hsnd⟩
  have hmem := List.mem_of_find?_eq_some hfind
  have := (List.mem_filter.1 hmem).2
  rw [← hsnd]
  simpa using this

lemma lookupEntry_map_upd (l : List (CacheKey × CacheEntry)) (k : CacheKey)
    (e' : CacheEntry) :
    lookupEntry (l.map (fun p => if p.1 = k then (k, e') else p)) k =
      (lookupEntry l k).map (fun _ => e') := by
  induction l with
  | nil => rfl
  | cons p t ih =>
    by_cases hp : p.1 = k
    · simp [lookupEntry, List.find?_cons, hp]
    · simp only [List.map_cons, if_neg hp]
      unfold lookupEntry
      rw [List.find?_cons, List.find?_cons]
      have : (decide (p.1 = k)) = false := by simp [hp]
      rw [this]
      exact ih

lemma lookupEntry_cons_self (l : List (CacheKey × CacheEntry)) (k : CacheKey)
    (e : CacheEntry) : lookupEntry ((k, e) :: l) k = some e := by
  simp [lookupEntry, List.find?_cons]

lemma build_optimized_prompt_hit (now : ℕ) (c : PromptCache)
    (sp ctx prov model : String) (key : CacheKey) (e : CacheEntry)
    (hen : c.enabled = true)
    (hkey : key = create_cache_key c sp ctx prov model)
    (hl : lookupEntry (cleanup_expired now c).cache key = some e) :
    build_optimized_prompt now c sp ctx prov model =
      ((build_formatted_prompt e.system_prompt e.context, ⟨true, e.hit_count + 1⟩),
       { c with cache := (cleanup_expired now c).cache.map (fun p => if p.1 = key then (key, { e with last_used := now, hit_count := e.hit_count + 1 }) else p) }) := by
  obtain ⟨cache0, en, cs, cc, dttl⟩ := c
  replace hen : en = true := hen
  subst hen
  have hl' : lookupEntry (cache0.filter (fun p => !is_expired now p.2)) key = some e := hl
  have hnex : is_expired now e = false :=
    lookupEntry_filter_not_expired now cache0 key e hl'
  have hget : get_cached_prompt now ⟨cache0, true, cs, cc, dttl⟩ sp ctx prov model =
      (some (build_formatted_prompt e.system_prompt e.context, ⟨true, e.hit_count + 1⟩),
       { cache := (cleanup_expired now ⟨cache0, true, cs, cc, dttl⟩).cache.map (fun p => if p.1 = key then (key, { e with last_used := now, hit_count := e.hit_count + 1 }) else p),
         enabled := true, cache_system := cs, cache_context := cc, default_ttl := dttl }) := by
    unfold get_cached_prompt
    rw [← hkey]
    simp only [Bool.not_true, Bool.false_eq_true, if_false]
    rw [hl]
    simp [hnex, cleanup_expired]
  unfold build_optimized_prompt
  rw [hget]

lemma build_optimized_prompt_miss (now : ℕ) (c : PromptCache)
    (sp ctx prov model : String) (key : CacheKey)
    (hen : c.enabled = true)
    (hkey : key = create_cache_key c sp ctx prov model)
    (hl : lookupEntry (cleanup_expired now c).cache key = none) :
    build_optimized_prompt now c sp ctx prov model =
      ((build_formatted_prompt sp ctx, ⟨false, 0⟩),
       { c with cache := (key, ⟨if c.cache_system then sp else "", if c.cache_context then ctx else "", now, now, 0, c.default_ttl⟩) :: (cleanup_expired now c).cache.filter (fun p => !decide (p.1 = key)) }) := by
  obtain ⟨cache0, en, cs, cc, dttl⟩ := c
  replace hen : en = true := hen
  subst hen
  have hget : get_cached_prompt now ⟨cache0, true, cs, cc, dttl⟩ sp ctx prov model =
      (none, cleanup_expired now ⟨cache0, true, cs, cc, dttl⟩) := by
    unfold get_cached_prompt
    rw [← hkey]
    simp only [Bool.not_true, Bool.false_eq_true, if_false]
    rw [hl]
  have hcache : cache_prompt now (cleanup_expired now ⟨cache0, true, cs, cc, dttl⟩) sp ctx prov model none =
      (some key,
       { cache := (key, ⟨if cs then sp else "", if cc then ctx else "", now, now, 0, dttl⟩) :: (cleanup_expired now ⟨cache0, true, cs, cc, dttl⟩).cache.filter (fun p => !decide (p.1 = key)),
         enabled := true, cache_system := cs, cache_context := cc, default_ttl := dttl }) := by
    unfold cache_prompt
    rw [show create_cache_key (cleanup_expired now ⟨cache0, true, cs, cc, dttl⟩) sp ctx prov model = create_cache_key ⟨cache0, true, cs, cc, dttl⟩ sp ctx prov model from rfl, ← hkey]
    rfl
  unfold build_optimized_prompt
  rw [hget]
  simp only
  rw [hcache]

lemma build_optimized_prompt_second_call (t2 : ℕ) (c1 : PromptCache)
    (sp ctx prov model : String) (key : CacheKey) (e1 : CacheEntry)
    (hen1 : c1.enabled = true)
    (hkey1 : key = create_cache_key c1 sp ctx prov model)
    (hl1 : lookupEntry c1.cache key = some e1)
    (hne : ∀ p ∈ c1.cache, is_expired t2 p.2 = false) :
    build_optimized_prompt t2 c1 sp ctx prov model =
      ((build_formatted_prompt e1.system_prompt e1.context, ⟨true, e1.hit_count + 1⟩),
       { c1 with cache := c1.cache.map (fun p => if p.1 = key then (key, { e1 with last_used := t2, hit_count := e1.hit_count + 1 }) else p) }) := by
  have hclean : (cleanup_expired t2 c1).cache = c1.cache := by
    show c1.cache.filter _ = c1.cache
    rw [List.filter_eq_self]
    intro p hp
    rw [hne p hp]
    rfl
  have hl2 : lookupEntry (cleanup_expired t2 c1).cache key = some e1 := by
    rw [hclean]
    exact hl1
  have h := build_optimized_prompt_hit t2 c1 sp ctx prov model key e1 hen1 hkey1 hl2
  rw [hclean] at h
  exact h

/-- Claim C5: for every (system prompt, context, provider, model)
tuple, with the cache enabled and both caching flags on (the default
configuration), two successive `build_optimized_prompt` calls with no
intervening mutation and no entry expiring between the calls return
byte-identical assembled prompts; the second call is a cache hit whose
reported `hit_count` is exactly one greater than the stored entry's
count before the call, and the number of cache entries is unchanged. -/
theorem c5_prompt_cache_idempotent_hit (c : PromptCache) (t1 t2 : ℕ)
    (system_prompt context provider model : String)
    (hen : c.enabled = true) (hsys : c.cache_system = true)
    (hctx : c.cache_context = true)
    (hne : ∀ p ∈ (build_optimized_prompt t1 c system_prompt context provider model).2.cache,
      is_expired t2 p.2 = false) :
    ((build_optimized_prompt t2
        (build_optimized_prompt t1 c system_prompt context provider model).2
        system_prompt context provider model).1.1 =
      (build_optimized_prompt t1 c system_prompt context provider model).1.1) ∧
    ((build_optimized_prompt t2
        (build_optimized_prompt t1 c system_prompt context provider model).2
        system_prompt context provider model).1.2.cache_hit = true) ∧
    (∃ e1, lookupEntry
        (build_optimized_prompt t1 c system_prompt context provider model).2.cache
        (create_cache_key c system_prompt context provider model) = some e1 ∧
      (build_optimized_prompt t2
        (build_optimized_prompt t1 c system_prompt context provider model).2
        system_prompt context provider model).1.2.hit_count = e1.hit_count + 1) ∧
    ((build_optimized_prompt t2
        (build_optimized_prompt t1 c system_prompt context provider model).2
        system_prompt context provider model).2.cache.length =
      (build_optimized_prompt t1 c system_prompt context provider model).2.cache.length) := by
  set key := create_cache_key c system_prompt context provider model with hkey
  cases hl1 : lookupEntry (cleanup_expired t1 c).cache key with
  | some e =>
    have hb1 := build_optimized_prompt_hit t1 c system_prompt context provider model
      key e hen hkey hl1
    set e1 : CacheEntry := { e with last_used := t1, hit_count := e.hit_count + 1 } with he1d
    set M := (cleanup_expired t1 c).cache.map
      (fun p => if p.1 = key then (key, e1) else p) with hM
    rw [hb1] at hne
    have he1 : lookupEntry M key = some e1 := by
      rw [hM, lookupEntry_map_upd, hl1]
      rfl
    have hb2 := build_optimized_prompt_second_call t2 { c with cache := M }
      system_prompt context provider model key e1 hen hkey he1 hne
    simp only [hb1, hb2]
    refine ⟨trivial, trivial, ⟨e1, he1, by simp⟩, by simp⟩
  | none =>
    have hb1 := build_optimized_prompt_miss t1 c system_prompt context provider model
      key hen hkey hl1
    set e1 : CacheEntry := ⟨if c.cache_system then system_prompt else "",
      if c.cache_context then context else "", t1, t1, 0, c.default_ttl⟩ with he1d
    set M := (key, e1) :: (cleanup_expired t1 c).cache.filter
      (fun p => !decide (p.1 = key)) with hM
    rw [hb1] at hne
    have he1 : lookupEntry M key = some e1 := by
      rw [hM]
      exact lookupEntry_cons_self _ _ _
    have hb2 := build_optimized_prompt_second_call t2 { c with cache := M }
      system_prompt context provider model key e1 hen hkey he1 hne
    simp only [hb1, hb2]
    refine ⟨?_, trivial, ⟨e1, he1, by simp⟩, by simp⟩
    show build_formatted_prompt e1.system_prompt e1.context =
      build_formatted_prompt system_prompt context
    rw [he1d]
    show build_formatted_prompt (if c.cache_system = true then system_prompt else "")
      (if c.cache_context = true then context else "") =
      build_formatted_prompt system_prompt context
    rw [hsys, hctx]
    rfl

theorem c5_prompt_cache_idempotent_hit_witness :
    (∀ p ∈ (build_optimized_prompt 0 ⟨[], true, true, true, 5⟩ "s" "c" "p" "m").2.cache,
      is_expired 0 p.2 = false) ∧
    ((build_optimized_prompt 0
        (build_optimized_prompt 0 ⟨[], true, true, true, 5⟩ "s" "c" "p" "m").2
        "s" "c" "p" "m").1.1 =
      (build_optimized_prompt 0 ⟨[], true, true, true, 5⟩ "s" "c" "p" "m").1.1) ∧
    (build_optimized_prompt 0
        (build_optimized_prompt 0 ⟨[], true, true, true, 5⟩ "s" "c" "p" "m").2
        "s" "c" "p" "m").1.2.cache_hit = true := by
  have h := c5_prompt_cache_idempotent_hit ⟨[], true, true, true, 5⟩ 0 0
    "s" "c" "p" "m" rfl rfl rfl (by decide)
  exact ⟨by decide, h.1, h.2.1⟩

lemma to_rank_map_nodup {L : List String} (hnd : L.Nodup) (doc_id : String) :
    to_rank_map L doc_id = if doc_id ∈ L then some (L.indexOf doc_id) else none := by
  induction L with
  | nil => simp [to_rank_map]
  | cons a t ih =>
    have hat : a ∉ t := (List.nodup_cons.1 hnd).1
    have iht := ih (List.nodup_cons.1 hnd).2
    unfold to_rank_map
    by_cases hmem : doc_id ∈ t
    · rw [iht, if_pos hmem]
      have hne : a ≠ doc_id := fun h => hat (h ▸ hmem)
      have hbeq : (a == doc_id) = false := by simpa using hne
      rw [if_pos (List.mem_cons.2 (Or.inr hmem))]
      rw [List.indexOf_cons, hbeq]
      rfl
    · rw [iht, if_neg hmem]
      by_cases ha : a = doc_id
      · have hbeq : (a == doc_id) = true := by simpa using ha
        rw [if_pos ha, if_pos (List.mem_cons.2 (Or.inl ha.symm))]
        rw [List.indexOf_cons, hbeq]
        rfl
      · have hda : doc_id ≠ a := fun h => ha h.symm
        rw [if_neg ha]
        rw [if_neg (by simp [List.mem_cons, hmem, hda])]

lemma indexOf_getElem_of_nodup {L : List String} (hnd : L.Nodup) (i : ℕ)
    (hi : i < L.length) : L.indexOf L[i] = i := by
  have hmem : L[i] ∈ L := List.getElem_mem hi
  have hlt : L.indexOf L[i] < L.length := List.indexOf_lt_length.2 hmem
  have hg : L[L.indexOf L[i]] = L[i] := List.getElem_indexOf hlt
  exact (List.Nodup.getElem_inj_iff hnd).1 hg

lemma rrf_score_self {L : List String} (hnd : L.Nodup) (doc_id : String)
    (hmem : doc_id ∈ L) :
    rrf_score L L 60 doc_id =
      1 / ((60 : ℚ) + L.indexOf doc_id) + 1 / ((60 : ℚ) + L.indexOf doc_id) := by
  unfold rrf_score
  rw [to_rank_map_nodup hnd, if_pos hmem]
  norm_num

lemma rrf_merge_self_sorted (L ids : List String) (hnd : L.Nodup)
    (hperm : ids.Perm L) :
    (ids.map (fun doc_id => (doc_id, rrf_score L L 60 doc_id))).insertionSort
      (fun a b => a.2 ≥ b.2) =
      L.map (fun doc_id => (doc_id, rrf_score L L 60 doc_id)) := by
  letI : IsTotal (String × ℚ) (fun a b => a.2 ≥ b.2) := ⟨fun a b => le_total b.2 a.2⟩
  letI : IsTrans (String × ℚ) (fun a b => a.2 ≥ b.2) := ⟨fun a b c h1 h2 => le_trans h2 h1⟩
  have hpermF : (ids.map (fun doc_id => (doc_id, rrf_score L L 60 doc_id))).Perm
      (L.map (fun doc_id => (doc_id, rrf_score L L 60 doc_id))) := hperm.map _
  have hpermS : ((ids.map (fun doc_id => (doc_id, rrf_score L L 60 doc_id))).insertionSort
      (fun a b => a.2 ≥ b.2)).Perm
      (L.map (fun doc_id => (doc_id, rrf_score L L 60 doc_id))) :=
    (List.perm_insertionSort _ _).trans hpermF
  have htargetStrict : (L.map (fun doc_id => (doc_id, rrf_score L L 60 doc_id))).Pairwise
      (fun a b => a.2 > b.2) := by
    rw [List.pairwise_map, List.pairwise_iff_getElem]
    intro i j hi hj hij
    show rrf_score L L 60 L[j] < rrf_score L L 60 L[i]
    rw [rrf_score_self hnd L[i] (List.getElem_mem hi),
        rrf_score_self hnd L[j] (List.getElem_mem hj),
        indexOf_getElem_of_nodup hnd i hi, indexOf_getElem_of_nodup hnd j hj]
    have hij' : (i : ℚ) < j := by exact_mod_cast hij
    have h0 : (0 : ℚ) < 60 + i := by positivity
    have h1 : (60 : ℚ) + i < 60 + j := by linarith
    have h2 := one_div_lt_one_div_of_lt h0 h1
    linarith
  have hsortGE : ((ids.map (fun doc_id => (doc_id, rrf_score L L 60 doc_id))).insertionSort
      (fun a b => a.2 ≥ b.2)).Pairwise (fun a b => a.2 ≥ b.2) :=
    List.sorted_insertionSort _ _
  have htargetNe : ((L.map (fun doc_id => (doc_id, rrf_score L L 60 doc_id))).map
      (fun p => p.2)).Pairwise (· ≠ ·) := by
    rw [List.pairwise_map]
    exact htargetStrict.imp (fun h => ne_of_gt h)
  have htargetNodup : ((L.map (fun doc_id => (doc_id, rrf_score L L 60 doc_id))).map
      (fun p : String × ℚ => p.2)).Nodup := htargetNe
  have hsortNe : (((ids.map (fun doc_id => (doc_id, rrf_score L L 60 doc_id))).insertionSort
      (fun a b => a.2 ≥ b.2)).map (fun p : String × ℚ => p.2)).Pairwise (· ≠ ·) :=
    (hpermS.map (fun p : String × ℚ => p.2)).nodup_iff.2 htargetNodup
  have hsortNe' : ((ids.map (fun doc_id => (doc_id, rrf_score L L 60 doc_id))).insertionSort
      (fun a b => a.2 ≥ b.2)).Pairwise (fun a b => a.2 ≠ b.2) :=
    List.pairwise_map.1 hsortNe
  have hsortStrict : ((ids.map (fun doc_id => (doc_id, rrf_score L L 60 doc_id))).insertionSort
      (fun a b => a.2 ≥ b.2)).Pairwise (fun a b => a.2 > b.2) :=
    (hsortGE.and hsortNe').imp (fun h => lt_of_le_of_ne h.1 (Ne.symm h.2))
  haveI : IsAntisymm (String × ℚ) (fun a b => a.2 > b.2) :=
    ⟨fun a b h1 h2 => absurd h1 (not_lt.2 (le_of_lt h2))⟩
  exact List.eq_of_perm_of_sorted hpermS hsortStrict htargetStrict

/-- Claim C8: feeding the same ranked list of distinct ids to both the
dense and the lexical side of `rrf_merge` (with any enumeration order
of the id set) returns exactly the first `top_k` elements of that list
in order — each id scores `2/(60 + rank)`, strictly decreasing in rank,
so the descending sort reproduces the list. -/
theorem c8_rrf_identical_lists_take (L ids : List String) (k : ℕ)
    (hnd : L.Nodup) (hperm : ids.Perm L) (_hk : k ≤ L.length) :
    rrf_merge L L ids 60 k = L.take k := by
  show ((((ids.map (fun doc_id => (doc_id, rrf_score L L 60 doc_id))).insertionSort
      (fun a b => a.2 ≥ b.2)).take k).map Prod.fst) = L.take k
  rw [rrf_merge_self_sorted L ids hnd hperm]
  rw [← List.map_take]
  rw [List.map_map]
  rw [show (Prod.fst ∘ fun doc_id => (doc_id, rrf_score L L 60 doc_id)) = id from rfl]
  rw [List.map_id]

theorem c8_rrf_identical_lists_take_witness :
    (["x", "y"] : List String).Nodup ∧ (["y", "x"] : List String).Perm ["x", "y"] ∧
    1 ≤ (["x", "y"] : List String).length ∧
    rrf_merge ["x", "y"] ["x", "y"] ["y", "x"] 60 1 = ["x"] :=
  ⟨by decide, List.Perm.swap "x" "y" [], by decide,
   c8_rrf_identical_lists_take ["x", "y"] ["y", "x"] 1 (by decide)
     (List.Perm.swap "x" "y" []) (by decide)⟩

lemma c4_score_A : rrf_score ["A", "B", "C"] ["C", "B", "A"] 60 "A" =
    1 / 60 + 1 / 62 := by
  unfold rrf_score
  rw [show to_rank_map ["A", "B", "C"] "A" = some 0 from by decide,
      show to_rank_map ["C", "B", "A"] "A" = some 2 from by decide]
  norm_num

lemma c4_score_B : rrf_score ["A", "B", "C"] ["C", "B", "A"] 60 "B" =
    1 / 61 + 1 / 61 := by
  unfold rrf_score
  rw [show to_rank_map ["A", "B", "C"] "B" = some 1 from by decide,
      show to_rank_map ["C", "B", "A"] "B" = some 1 from by decide]
  norm_num

lemma c4_score_C : rrf_score ["A", "B", "C"] ["C", "B", "A"] 60 "C" =
    1 / 62 + 1 / 60 := by
  unfold rrf_score
  rw [show to_rank_map ["A", "B", "C"] "C" = some 2 from by decide,
      show to_rank_map ["C", "B", "A"] "C" = some 0 from by decide]
  norm_num

lemma getLast_of_strict_min :
    ∀ (s : List (String × ℚ)) (b : String × ℚ),
      s.Pairwise (fun x y => x.2 ≥ y.2) → b ∈ s →
      (∀ p ∈ s, p ≠ b → b.2 < p.2) → s.getLast? = some b := by
  intro s
  induction s with
  | nil => intro b _ hmem _; cases hmem
  | cons p rest ih =>
    intro b hp hmem hmin
    cases rest with
    | nil =>
      rw [List.mem_singleton.1 hmem]
      rfl
    | cons q rest2 =>
      rw [List.getLast?_cons_cons]
      apply ih b (List.pairwise_cons.1 hp).2
      · by_cases hb : b ∈ q :: rest2
        · exact hb
        · have hbp : b = p := by
            rcases List.mem_cons.1 hmem with h | h
            · exact h
            · exact absurd h hb
          have hqb : q ≠ b := fun h => hb (h ▸ List.mem_cons_self q rest2)
          have h1 : b.2 < q.2 :=
            hmin q (List.mem_cons.2 (Or.inr (List.mem_cons_self q rest2))) hqb
          have h2 : p.2 ≥ q.2 :=
            (List.pairwise_cons.1 hp).1 q (List.mem_cons_self q rest2)
          rw [hbp] at h1
          exact absurd h1 (not_lt.2 h2)
      · intro x hx hxb
        exact hmin x (List.mem_cons.2 (Or.inr hx)) hxb

lemma c4_main (ids : List String) (hperm : ids.Perm ["A", "B", "C"]) :
    (rrf_merge ["A", "B", "C"] ["C", "B", "A"] ids 60 3).getLast? = some "B" ∧
    (rrf_merge ["A", "B", "C"] ["C", "B", "A"] ids 60 3).Perm ["A", "B", "C"] := by
  letI : IsTotal (String × ℚ) (fun a b => a.2 ≥ b.2) := ⟨fun a b => le_total b.2 a.2⟩
  letI : IsTrans (String × ℚ) (fun a b => a.2 ≥ b.2) := ⟨fun a b c h1 h2 => le_trans h2 h1⟩
  have hpermS : ((ids.map (fun doc_id =>
      (doc_id, rrf_score ["A", "B", "C"] ["C", "B", "A"] 60 doc_id))).insertionSort
      (fun a b => a.2 ≥ b.2)).Perm
      (["A", "B", "C"].map (fun doc_id =>
        (doc_id, rrf_score ["A", "B", "C"] ["C", "B", "A"] 60 doc_id))) :=
    (List.perm_insertionSort _ _).trans (hperm.map _)
  have hlen : ((ids.map (fun doc_id =>
      (doc_id, rrf_score ["A", "B", "C"] ["C", "B", "A"] 60 doc_id))).insertionSort
      (fun a b => a.2 ≥ b.2)).length = 3 := by
    rw [hpermS.length_eq]
    rfl
  have htake : ((ids.map (fun doc_id =>
      (doc_id, rrf_score ["A", "B", "C"] ["C", "B", "A"] 60 doc_id))).insertionSort
      (fun a b => a.2 ≥ b.2)).take 3 = (ids.map (fun doc_id =>
      (doc_id, rrf_score ["A", "B", "C"] ["C", "B", "A"] 60 doc_id))).insertionSort
      (fun a b => a.2 ≥ b.2) :=
    List.take_of_length_le (le_of_eq hlen)
  have hsortGE := List.sorted_insertionSort (fun a b : String × ℚ => a.2 ≥ b.2)
    (ids.map (fun doc_id => (doc_id, rrf_score ["A", "B", "C"] ["C", "B", "A"] 60 doc_id)))
  have hmemB : ("B", rrf_score ["A", "B", "C"] ["C", "B", "A"] 60 "B") ∈
      (ids.map (fun doc_id =>
        (doc_id, rrf_score ["A", "B", "C"] ["C", "B", "A"] 60 doc_id))).insertionSort
      (fun a b => a.2 ≥ b.2) := by
    rw [hpermS.mem_iff]
    simp
  have hmin : ∀ p ∈ (ids.map (fun doc_id =>
      (doc_id, rrf_score ["A", "B", "C"] ["C", "B", "A"] 60 doc_id))).insertionSort
      (fun a b => a.2 ≥ b.2),
      p ≠ ("B", rrf_score ["A", "B", "C"] ["C", "B", "A"] 60 "B") →
      ("B", rrf_score ["A", "B", "C"] ["C", "B", "A"] 60 "B").2 < p.2 := by
    intro p hpmem hpne
    rw [hpermS.mem_iff] at hpmem
    simp only [List.map_cons, List.map_nil, List.mem_cons, List.mem_singleton,
      List.not_mem_nil, or_false] at hpmem
    rcases hpmem with h | h | h
    · rw [h]
      show rrf_score ["A", "B", "C"] ["C", "B", "A"] 60 "B" <
        rrf_score ["A", "B", "C"] ["C", "B", "A"] 60 "A"
      rw [c4_score_A, c4_score_B]
      norm_num
    · exact absurd h hpne
    · rw [h]
      show rrf_score ["A", "B", "C"] ["C", "B", "A"] 60 "B" <
        rrf_score ["A", "B", "C"] ["C", "B", "A"] 60 "C"
      rw [c4_score_B, c4_score_C]
      norm_num
  have hlast := getLast_of_strict_min _ _ hsortGE hmemB hmin
  constructor
  · show ((((ids.map (fun doc_id =>
        (doc_id, rrf_score ["A", "B", "C"] ["C", "B", "A"] 60 doc_id))).insertionSort
        (fun a b => a.2 ≥ b.2)).take 3).map Prod.fst).getLast? = some "B"
    rw [htake, List.getLast?_map, hlast]
    rfl
  · show ((((ids.map (fun doc_id =>
        (doc_id, rrf_score ["A", "B", "C"] ["C", "B", "A"] 60 doc_id))).insertionSort
        (fun a b => a.2 ≥ b.2)).take 3).map Prod.fst).Perm ["A", "B", "C"]
    rw [htake]
    have := hpermS.map Prod.fst
    simpa using this

/-- Claim C4, amended: on the seeded dense list `[A,B,C]` and lexical
list `[C,B,A]` with rank constant 60 and `top_k = 3`, the fused scores
(0-based list positions as ranks) are `score(A) = 1/60 + 1/62`,
`score(B) = 1/61 + 1/61` and `score(C) = 1/62 + 1/60` — B sits at rank 1
in both lists, so it scores strictly lowest while A and C tie — and the
merge returns `[A, C, B]` or `[C, A, B]` (A-vs-C order decided by the
set-enumeration order), not `[B, C, A]` or `[B, A, C]` as claimed. -/
theorem c4_rrf_seeded_merge_amended (ids : List String)
    (hperm : ids.Perm ["A", "B", "C"]) :
    (rrf_merge ["A", "B", "C"] ["C", "B", "A"] ids 60 3 = ["A", "C", "B"] ∨
     rrf_merge ["A", "B", "C"] ["C", "B", "A"] ids 60 3 = ["C", "A", "B"]) ∧
    rrf_score ["A", "B", "C"] ["C", "B", "A"] 60 "A" = 1 / 60 + 1 / 62 ∧
    rrf_score ["A", "B", "C"] ["C", "B", "A"] 60 "B" = 1 / 61 + 1 / 61 ∧
    rrf_score ["A", "B", "C"] ["C", "B", "A"] 60 "C" = 1 / 62 + 1 / 60 := by
  obtain ⟨hlast, hres⟩ := c4_main ids hperm
  refine ⟨?_, c4_score_A, c4_score_B, c4_score_C⟩
  have hlen : (rrf_merge ["A", "B", "C"] ["C", "B", "A"] ids 60 3).length = 3 := by
    rw [hres.length_eq]
    rfl
  rcases List.length_eq_three.1 hlen with ⟨x, y, z, hxyz⟩
  rw [hxyz] at hlast hres ⊢
  have hz : z = "B" := by
    rw [List.getLast?_cons_cons, List.getLast?_cons_cons] at hlast
    exact Option.some.inj hlast
  subst hz
  have hnd : ([x, y, "B"] : List String).Nodup := hres.nodup_iff.2 (by decide)
  simp only [List.nodup_cons, List.mem_cons, List.mem_singleton,
    List.not_mem_nil, or_false, not_or] at hnd
  obtain ⟨⟨hxy, hxB⟩, hyB, _⟩ := hnd
  have hx : x ∈ (["A", "B", "C"] : List String) := hres.mem_iff.1 (by simp)
  have hy : y ∈ (["A", "B", "C"] : List String) := hres.mem_iff.1 (by simp)
  simp only [List.mem_cons, List.mem_singleton, List.not_mem_nil, or_false] at hx hy
  rcases hx with rfl | rfl | rfl
  · rcases hy with rfl | rfl | rfl
    · exact absurd rfl hxy
    · exact absurd rfl hyB
    · exact Or.inl rfl
  · exact absurd rfl hxB
  · rcases hy with rfl | rfl | rfl
    · exact Or.inr rfl
    · exact absurd rfl hyB
    · exact absurd rfl hxy

theorem c4_rrf_seeded_merge_amended_witness :
    ((["A", "B", "C"] : List String).Perm ["A", "B", "C"]) ∧
    (rrf_merge ["A", "B", "C"] ["C", "B", "A"] ["A", "B", "C"] 60 3 = ["A", "C", "B"] ∨
     rrf_merge ["A", "B", "C"] ["C", "B", "A"] ["A", "B", "C"] 60 3 = ["C", "A", "B"]) :=
  ⟨List.Perm.refl _,
   (c4_rrf_seeded_merge_amended ["A", "B", "C"] (List.Perm.refl _)).1⟩

/-- Claim C4 counterexample: for the seeded lists the merge never
returns `[B, C, A]` or `[B, A, C]` (B's fused score `2/61` is strictly
lowest, so B is last for every enumeration order — shown here for the
enumeration `[A, B, C]`), and B's fused score is not the claimed
`1/60 + 1/61`. -/
theorem c4_rrf_seeded_merge_cex :
    rrf_merge ["A", "B", "C"] ["C", "B", "A"] ["A", "B", "C"] 60 3 ≠ ["B", "C", "A"] ∧
    rrf_merge ["A", "B", "C"] ["C", "B", "A"] ["A", "B", "C"] 60 3 ≠ ["B", "A", "C"] ∧
    rrf_score ["A", "B", "C"] ["C", "B", "A"] 60 "B" ≠ 1 / 60 + 1 / 61 := by
  obtain ⟨hlast, _⟩ := c4_main ["A", "B", "C"] (List.Perm.refl _)
  refine ⟨?_, ?_, ?_⟩
  · intro h
    rw [h] at hlast
    exact absurd hlast (by decide)
  · intro h
    rw [h] at hlast
    exact absurd hlast (by decide)
  · rw [c4_score_B]
    norm_num
